import Mathlib

/-!
Verification of the `crud` package of `yinqf/go-pkg` (generic GORM-backed
CRUD service).  Go strings are modelled as `List Char`; the GORM query is
modelled as the list of conditions accumulated by `Where`/`Not` calls; the
store itself is abstracted where an operation's result depends on it.
-/

deriving instance DecidableEq for Except

/-- Go strings, modelled as lists of characters. -/
abbrev Str := List Char

/-- Convenience conversion from Lean string literals. -/
def str (s : String) : Str := s.toList

/-- Go `unicode.IsSpace` (the White_Space code points). -/
def goIsSpace (c : Char) : Bool :=
  c == ' ' || c == '\t' || c == '\n' || c == Char.ofNat 11 || c == Char.ofNat 12 ||
  c == '\r' || c == Char.ofNat 0x85 || c == Char.ofNat 0xA0 ||
  c == Char.ofNat 0x1680 ||
  (Char.ofNat 0x2000 ≤ c && c ≤ Char.ofNat 0x200A) ||
  c == Char.ofNat 0x2028 || c == Char.ofNat 0x2029 || c == Char.ofNat 0x202F ||
  c == Char.ofNat 0x205F || c == Char.ofNat 0x3000

/-- Go `strings.TrimSpace`: drop leading and trailing white space. -/
def trimSpace (s : Str) : Str :=
  ((s.dropWhile goIsSpace).reverse.dropWhile goIsSpace).reverse

/-- Go `strings.ToLower`, restricted to the ASCII fragment that the
operator/boolean alias tables use (non-ASCII characters are untouched). -/
def goToLower (s : Str) : Str :=
  s.map (fun c => if 'A' ≤ c ∧ c ≤ 'Z' then Char.ofNat (c.toNat + 32) else c)

/-- Go `strings.ContainsAny`. -/
def containsAny (s chars : Str) : Bool :=
  s.any (fun c => chars.contains c)

/-- Whether `"__"` occurs in `s` starting at index `i`. -/
def dunderAt (s : Str) (i : Nat) : Bool :=
  decide ((s.drop i).take 2 = ['_', '_'])

/-- Scan indices `n-1, n-2, …, 0` for the last `"__"` occurrence; this is Go
`strings.LastIndex(s, "__")` (which searches from the end). -/
def lastDunderAux (s : Str) : Nat → Option Nat
  | 0 => none
  | n + 1 => if dunderAt s n then some n else lastDunderAux s n

/-- Go `strings.LastIndex(s, "__")` as an `Option`al index. -/
def lastDunderIdx (s : Str) : Option Nat :=
  lastDunderAux s s.length

/-- The filter operators of the `crud` package (`filterOp` constants). -/
inductive FilterOp where
  | eq | ne | gt | gte | lt | lte | like | inOp | nin | between | isnull | notnull
deriving DecidableEq

/-- `normalizeFilterOp` from `crud`: case-insensitive operator alias table. -/
def normalizeFilterOp (raw : Str) : Option FilterOp :=
  let s := goToLower (trimSpace raw)
  if s = str "eq" ∨ s = str "=" then some FilterOp.eq
  else if s = str "ne" ∨ s = str "neq" ∨ s = str "!=" ∨ s = str "<>" then some FilterOp.ne
  else if s = str "gt" ∨ s = str ">" then some FilterOp.gt
  else if s = str "gte" ∨ s = str "ge" ∨ s = str ">=" then some FilterOp.gte
  else if s = str "lt" ∨ s = str "<" then some FilterOp.lt
  else if s = str "lte" ∨ s = str "le" ∨ s = str "<=" then some FilterOp.lte
  else if s = str "like" ∨ s = str "contains" ∨ s = str "contain" then some FilterOp.like
  else if s = str "in" then some FilterOp.inOp
  else if s = str "nin" ∨ s = str "notin" ∨ s = str "not_in" then some FilterOp.nin
  else if s = str "between" ∨ s = str "range" then some FilterOp.between
  else if s = str "isnull" ∨ s = str "null" then some FilterOp.isnull
  else if s = str "notnull" ∨ s = str "not_null" ∨ s = str "isnotnull" then some FilterOp.notnull
  else none

/-- `parseFilterKey` from `crud`: split `col__op` at the last `"__"` that is
not at position 0 and leaves at least one character after it; fall back to
`(trimmed key, eq)`. -/
def parseFilterKey (key : Str) : Str × FilterOp :=
  let trimmed := trimSpace key
  if trimmed = [] then ([], FilterOp.eq)
  else
    match lastDunderIdx trimmed with
    | some idx =>
      if 0 < idx ∧ idx < trimmed.length - 2 then
        match normalizeFilterOp (trimmed.drop (idx + 2)) with
        | some op => (trimmed.take idx, op)
        | none => (trimmed, FilterOp.eq)
      else (trimmed, FilterOp.eq)
    | none => (trimmed, FilterOp.eq)

/-- `normalizeFilterValues` from `crud`: trim every raw value, dropping the
ones that become empty. -/
def normalizeFilterValues : List Str → List Str
  | [] => []
  | raw :: rest =>
    let t := trimSpace raw
    if t = [] then normalizeFilterValues rest else t :: normalizeFilterValues rest

/-- Go `strings.Split(raw, ",")`. -/
def splitComma : Str → List Str
  | [] => [[]]
  | c :: rest =>
    if c = ',' then [] :: splitComma rest
    else
      match splitComma rest with
      | [] => [[c]]
      | p :: ps => (c :: p) :: ps

/-- The inner loop of `splitCommaValues`: comma-split one raw value, trim
each part and drop the empty ones. -/
def commaParts (raw : Str) : List Str :=
  ((splitComma raw).map trimSpace).filter (fun p => ¬ p = [])

/-- `splitCommaValues` from `crud`. -/
def splitCommaValues : List Str → List Str
  | [] => []
  | raw :: rest => commaParts raw ++ splitCommaValues rest

/-- `parseBoolValue` from `crud` (`(bool, ok)` becomes an `Option`). -/
def parseBoolValue (raw : Str) : Option Bool :=
  let s := goToLower (trimSpace raw)
  if s = str "1" ∨ s = str "true" ∨ s = str "yes" ∨ s = str "y" ∨ s = str "on" then some true
  else if s = str "0" ∨ s = str "false" ∨ s = str "no" ∨ s = str "n" ∨ s = str "off" then
    some false
  else none

/-- `firstValue` from `crud`: first element or the empty string. -/
def firstValue (values : List Str) : Str :=
  match values with
  | [] => []
  | v :: _ => v

/-- One SQL condition added to the query by `ApplyFilters`.  `notInList`
models `query.Not(clause.IN{...})`; the rest model the corresponding
`clause.*` conditions added with `query.Where(...)`. -/
inductive SqlCond where
  | eq (column : Str) (value : Str)
  | ne (column : Str) (value : Str)
  | gt (column : Str) (value : Str)
  | gte (column : Str) (value : Str)
  | lt (column : Str) (value : Str)
  | lte (column : Str) (value : Str)
  | like (column : Str) (pattern : Str)
  | inList (column : Str) (values : List Str)
  | notInList (column : Str) (values : List Str)
  | isNull (column : Str)
  | notNull (column : Str)
deriving DecidableEq

/-- The column referenced by a condition. -/
def predColumn : SqlCond → Str
  | SqlCond.eq c _ => c
  | SqlCond.ne c _ => c
  | SqlCond.gt c _ => c
  | SqlCond.gte c _ => c
  | SqlCond.lt c _ => c
  | SqlCond.lte c _ => c
  | SqlCond.like c _ => c
  | SqlCond.inList c _ => c
  | SqlCond.notInList c _ => c
  | SqlCond.isNull c => c
  | SqlCond.notNull c => c

/-- The conditions one operator branch of `ApplyFilters` appends to the
query (each `query.Where(c)` / `query.Not(c)` call appends `c`; the
`between` branch appends two conditions, a branch whose inner guard fails
appends none). -/
def clauseConds (column : Str) (op : FilterOp) (values : List Str) : List SqlCond :=
  match op with
  | FilterOp.eq => [SqlCond.eq column (values.headD [])]
  | FilterOp.ne => [SqlCond.ne column (values.headD [])]
  | FilterOp.gt => [SqlCond.gt column (values.headD [])]
  | FilterOp.gte => [SqlCond.gte column (values.headD [])]
  | FilterOp.lt => [SqlCond.lt column (values.headD [])]
  | FilterOp.lte => [SqlCond.lte column (values.headD [])]
  | FilterOp.like =>
    let v0 := values.headD []
    let value := if ¬ v0 = [] ∧ containsAny v0 (str "%_") = false
      then str "%" ++ v0 ++ str "%" else v0
    if ¬ value = [] then [SqlCond.like column value] else []
  | FilterOp.inOp =>
    let list := splitCommaValues values
    if 0 < list.length then [SqlCond.inList column list] else []
  | FilterOp.nin =>
    let list := splitCommaValues values
    if 0 < list.length then [SqlCond.notInList column list] else []
  | FilterOp.between =>
    match splitCommaValues values with
    | a :: b :: _ =>
      let lo := trimSpace a
      let hi := trimSpace b
      if ¬ lo = [] ∧ ¬ hi = [] then [SqlCond.gte column lo, SqlCond.lte column hi] else []
    | _ => []
  | FilterOp.isnull =>
    match parseBoolValue (firstValue values) with
    | none => [SqlCond.isNull column]
    | some true => [SqlCond.isNull column]
    | some false => [SqlCond.notNull column]
  | FilterOp.notnull => [SqlCond.notNull column]

/-- The body of `ApplyFilters`' loop for one `key -> vals` entry.  The
`allowed` map is modelled by the list of keys bound to `true`. -/
def applyClause (query : List SqlCond) (key : Str) (vals : List Str) (allowed : List Str) :
    List SqlCond :=
  let column := (parseFilterKey key).1
  let op := (parseFilterKey key).2
  if column = [] ∨ allowed.contains column = false then query
  else
    let values := normalizeFilterValues vals
    if values = [] ∧ ¬ op = FilterOp.isnull ∧ ¬ op = FilterOp.notnull then query
    else query ++ clauseConds column op values

/-- `ApplyFilters` from `crud`.  The Go map is modelled as an association
list iterated in order (Go map iteration order is arbitrary; every claim
proved below holds for each order). -/
def ApplyFilters (query : List SqlCond) (filters : List (Str × List Str)) (allowed : List Str) :
    List SqlCond :=
  if filters = [] then query
  else filters.foldl (fun q kv => applyClause q kv.1 kv.2 allowed) query

/-- One requested ordering (`crud.OrderOption`). -/
structure OrderOption where
  Column : Str
  Desc : Bool
deriving DecidableEq

/-- The separator predicate of `parseOrderOption`'s `strings.FieldsFunc`. -/
def isOrderSep (c : Char) : Bool := c == ' ' || c == ':' || c == ','

/-- Accumulator-based splitter behind `goFieldsBy` (`cur` holds the current
field reversed). -/
def fieldsAux (sep : Char → Bool) (cur : Str) : Str → List Str
  | [] => if cur = [] then [] else [cur.reverse]
  | c :: rest =>
    if sep c then
      if cur = [] then fieldsAux sep [] rest else cur.reverse :: fieldsAux sep [] rest
    else fieldsAux sep (c :: cur) rest

/-- Go `strings.FieldsFunc`: maximal runs of non-separator characters. -/
def goFieldsBy (sep : Char → Bool) (s : Str) : List Str := fieldsAux sep [] s

/-- Whether a direction token selects descending order (the `switch` in
`parseOrderOption`, after trim and lower-casing). -/
def isDescWord (t : Str) : Bool :=
  let l := goToLower (trimSpace t)
  l == str "desc" || l == str "descend" || l == str "descending"

/-- Strip one leading `-` or `+` sign from a column token. -/
def stripSign (s : Str) : Str :=
  match s with
  | '-' :: cs => cs
  | '+' :: cs => cs
  | cs => cs

/-- Descending-by-prefix: a leading `-`. -/
def signDesc (s : Str) : Bool :=
  match s with
  | '-' :: _ => true
  | _ => false

/-- `parseOrderOption` from `utils/order_options.go` (duplicated verbatim in
the `crud` package). -/
def parseOrderOption (raw : Str) : Option OrderOption :=
  let trimmed := trimSpace raw
  if trimmed = [] then none
  else
    match goFieldsBy isOrderSep trimmed with
    | [] => none
    | p0 :: restParts =>
      let column0 := trimSpace p0
      if column0 = [] then none
      else
        let column := stripSign column0
        if column = [] then none
        else
          let desc :=
            match restParts with
            | [] => signDesc column0
            | p1 :: _ => isDescWord p1
          some ⟨column, desc⟩

/-- The seen-set loop of `sanitizeOrders` (`seen` is the key set of the map). -/
def sanitizeAux (allowed : List Str) : List OrderOption → List Str → List OrderOption
  | [], _ => []
  | o :: rest, seen =>
    let column := trimSpace o.Column
    if column = [] ∨ allowed.contains column = false then sanitizeAux allowed rest seen
    else if seen.contains column = true then sanitizeAux allowed rest seen
    else ⟨column, o.Desc⟩ :: sanitizeAux allowed rest (column :: seen)

/-- `sanitizeOrders` from `crud`. -/
def sanitizeOrders (orders : List OrderOption) (allowed : List Str) : List OrderOption :=
  if orders = [] ∨ allowed = [] then []
  else sanitizeAux allowed orders []

/-- Keep only the first occurrence of each column, in order (the spec's
description of de-duplication, compared against `sanitizeOrders` below). -/
def keepFirst : List OrderOption → List OrderOption
  | [] => []
  | o :: rest => o :: keepFirst (rest.filter (fun o2 => ¬ o2.Column = o.Column))
termination_by l => l.length
decreasing_by
  simp only [List.length_cons]
  exact Nat.lt_succ_of_le (List.length_filter_le _ _)

/-- One schema field as seen by `SaveOrUpdate`: its store column name
(`field.DBName`), the `Updatable` flag, `AutoUpdateTime`, and whether the
entity instance currently holds the field's zero value (the second result
of `field.ValueOf`). -/
structure FieldModel where
  dbName : Str
  updatable : Bool
  autoUpdateTime : Nat
  isZero : Bool
deriving DecidableEq

/-- A parsed entity: its schema fields (with this instance's zero flags) and
the index of `schema.PrioritizedPrimaryField` within them. -/
structure EntityModel where
  fields : List FieldModel
  primaryIdx : Nat
deriving DecidableEq

/-- The store write issued by `SaveOrUpdate`: a full insert
(`session.Create`), a column-restricted update
(`session.Model(...).Select(columns).Updates(...)`), or no write at all. -/
inductive SaveAction where
  | create
  | update (columns : List Str)
  | noop
deriving DecidableEq

/-- The column-collecting loop of `SaveOrUpdate` (index `i` tracks the
field's position; `field == primary` pointer equality is position
equality). -/
def updateColumnsAux (pIdx : Nat) : List FieldModel → Nat → List Str
  | [], _ => []
  | f :: rest, i =>
    if ¬ f.updatable = true ∨ f.dbName = [] ∨ i = pIdx then updateColumnsAux pIdx rest (i + 1)
    else if 0 < f.autoUpdateTime then f.dbName :: updateColumnsAux pIdx rest (i + 1)
    else if f.isZero = true then updateColumnsAux pIdx rest (i + 1)
    else f.dbName :: updateColumnsAux pIdx rest (i + 1)

/-- The update column set computed by `SaveOrUpdate`. -/
def updateColumns (fields : List FieldModel) (pIdx : Nat) : List Str :=
  updateColumnsAux pIdx fields 0

/-- `Service.SaveOrUpdate` from `crud`.  A `nil` entity is `none`; a failed
`stmt.Parse`/missing primary key is an out-of-range `primaryIdx` (the
reflection pointer checks always succeed for a parsed entity). -/
def saveOrUpdate (entity : Option EntityModel) : Except Str SaveAction :=
  match entity with
  | none => Except.error (str "entity is nil")
  | some e =>
    match e.fields[e.primaryIdx]? with
    | none => Except.error (str "primary key is not defined")
    | some primary =>
      if primary.isZero = true then Except.ok SaveAction.create
      else
        let columns := updateColumns e.fields e.primaryIdx
        if columns = [] then Except.ok SaveAction.noop
        else Except.ok (SaveAction.update columns)

/-- The delete condition built by `DeleteByID`: `session.Delete(new(T), n)`
filters on the schema's primary key; `session.Where("id = ?", id)` filters
on the column literally named `id`. -/
inductive DeleteCond where
  | byPrimaryKey (n : Nat)
  | byColumn (column : Str) (value : Str)
deriving DecidableEq

/-- Errors surfaced by `DeleteByID`, following the spec's taxonomy:
`errors.New("id is required")` is the `InvalidInput` case,
`gorm.ErrRecordNotFound` is `NotFound`, and store errors pass through. -/
inductive CrudError where
  | invalidInput (msg : Str)
  | notFound
  | storeFailure (msg : Str)
deriving DecidableEq

/-- ASCII decimal digit. -/
def isDigit (c : Char) : Bool := '0' ≤ c && c ≤ '9'

/-- Go `strconv.ParseUint(s, 10, 64)`: a non-empty all-digit string whose
value fits in 64 bits; no sign prefix is permitted, and range overflow is
an error. -/
def parseUint64 (s : Str) : Option Nat :=
  if s = [] then none
  else if s.all isDigit = false then none
  else
    let n := s.foldl (fun a c => a * 10 + (c.toNat - 48)) 0
    if n < 2 ^ 64 then some n else none

/-- The condition `DeleteByID` deletes by, for a non-blank id. -/
def deleteCondition (id : Str) : DeleteCond :=
  match parseUint64 id with
  | some n => DeleteCond.byPrimaryKey n
  | none => DeleteCond.byColumn (str "id") id

/-- `Service.DeleteByID` from `crud`.  `exec` abstracts the store: it maps
the delete condition to an error or to `RowsAffected`. -/
def DeleteByID (id : Str) (exec : DeleteCond → Except Str Nat) : Except CrudError Unit :=
  if trimSpace id = [] then Except.error (CrudError.invalidInput (str "id is required"))
  else
    match exec (deleteCondition id) with
    | Except.error e => Except.error (CrudError.storeFailure e)
    | Except.ok rows => if rows = 0 then Except.error CrudError.notFound else Except.ok ()

/-- Modelled from the spec: "otherwise delete by primary-key equality using
the string form".  The primary-key column name is a parameter because
`DeleteByID`'s string branch never consults the schema. -/
def specDeleteCondition (pkColumn : Str) (id : Str) : DeleteCond :=
  DeleteCond.byColumn pkColumn id

/-- One schema field as seen by `columnAllowlist`: `field.DBName` and
`field.Name`. -/
structure SchemaField where
  dbName : Str
  fieldName : Str
deriving DecidableEq

/-- The regular expression `^[a-zA-Z0-9_]+$` (`columnNamePattern`). -/
def matchesColumnNamePattern (s : Str) : Bool :=
  !s.isEmpty &&
    s.all (fun c =>
      ('a' ≤ c && c ≤ 'z') || ('A' ≤ c && c ≤ 'Z') || ('0' ≤ c && c ≤ '9') || c == '_')

/-- `name := field.DBName; if name == "" { name = field.Name }`. -/
def effectiveColumnName (f : SchemaField) : Str :=
  if f.dbName = [] then f.fieldName else f.dbName

/-- `columnAllowlist` from `crud`.  `schemaFields` is `some` when
`tx.Statement.Parse(model)` succeeds with a non-nil schema; `migratorCols`
is `some` when the migrator exists and `ColumnTypes(model)` succeeds.  The
result map is modelled by the list of names added to it (membership is the
map lookup); a nil `tx` is the `none`/`none` case. -/
def columnAllowlist (schemaFields : Option (List SchemaField))
    (migratorCols : Option (List Str)) : List Str :=
  match schemaFields with
  | some fs => (fs.map effectiveColumnName).filter matchesColumnNamePattern
  | none =>
    match migratorCols with
    | some cs => cs.filter matchesColumnNamePattern
    | none => []

/-- One ORDER BY item of the fetch query: `query.Order("id")` is a raw
fragment, `clause.OrderByColumn` a column with direction. -/
inductive OrderClause where
  | raw (sql : Str)
  | byColumn (column : Str) (descending : Bool)
deriving DecidableEq

/-- The query `Paginate` builds: filter conditions (shared by the count and
the fetch), the fetch's ORDER BY list, and the fetch's LIMIT/OFFSET.  The
count reads only `conds`; it is executed before LIMIT/OFFSET are applied. -/
structure PagePlan where
  conds : List SqlCond
  orderBy : List OrderClause
  limit : Int
  offset : Int
deriving DecidableEq

/-- The pure part of `Service.Paginate`: clamping, offset computation,
filter application and order resolution. -/
def paginatePlan (page size : Int) (filters : List (Str × List Str))
    (orders : List OrderOption) (allowed : List Str) : PagePlan :=
  let page1 := if page < 1 then 1 else page
  let size1 := if size ≤ 0 then 10 else size
  let offset := (page1 - 1) * size1
  let conds := ApplyFilters [] filters allowed
  let orderBy := sanitizeOrders orders allowed
  let orderClauses :=
    if orderBy = [] then [OrderClause.raw (str "id")]
    else orderBy.map (fun o => OrderClause.byColumn o.Column o.Desc)
  ⟨conds, orderClauses, size1, offset⟩

/-- A row satisfies every filter condition (`sat` abstracts the store's
evaluation of one condition on one row). -/
def rowMatches {Row : Type} (sat : SqlCond → Row → Bool) (conds : List SqlCond) (r : Row) :
    Bool :=
  conds.all (fun p => sat p r)

/-- `query.Count(&total)`: count the rows matching the filter conditions;
LIMIT/OFFSET are not yet on the query. -/
def countRows {Row : Type} (sat : SqlCond → Row → Bool) (rows : List Row) (plan : PagePlan) :
    Nat :=
  (rows.filter (rowMatches sat plan.conds)).length

/-- `query.Order(...).Limit(size).Offset(offset).Find(&list)`: the matching
rows, sorted by the store (`sortRows` abstracts ORDER BY), with OFFSET and
LIMIT applied. -/
def fetchRows {Row : Type} (sat : SqlCond → Row → Bool)
    (sortRows : List OrderClause → List Row → List Row) (rows : List Row) (plan : PagePlan) :
    List Row :=
  ((sortRows plan.orderBy (rows.filter (rowMatches sat plan.conds))).drop
    plan.offset.toNat).take plan.limit.toNat

/-- `Service.Paginate` from `crud` over an abstract store (`rows` with `sat`
and `sortRows`): returns `(list, total)`. -/
def Paginate {Row : Type} (sat : SqlCond → Row → Bool)
    (sortRows : List OrderClause → List Row → List Row) (rows : List Row)
    (page size : Int) (filters : List (Str × List Str)) (orders : List OrderOption)
    (allowed : List Str) : List Row × Nat :=
  let plan := paginatePlan page size filters orders allowed
  (fetchRows sat sortRows rows plan, countRows sat rows plan)

/-- Modelled from the spec: "the caller falls back to a single deterministic
ordering by primary key".  The primary-key column name is a parameter
because `Paginate`'s fallback never consults the schema. -/
def specPrimaryKeyFallback (pkColumn : Str) : List OrderClause :=
  [OrderClause.raw pkColumn]

/-! ### Supporting lemmas -/

theorem trimSpace_eq_rdropWhile (s : Str) :
    trimSpace s = List.rdropWhile goIsSpace (s.dropWhile goIsSpace) := rfl

theorem dropWhile_rdropWhile_dropWhile (s : Str) :
    List.dropWhile goIsSpace (List.rdropWhile goIsSpace (s.dropWhile goIsSpace)) =
    List.rdropWhile goIsSpace (s.dropWhile goIsSpace) := by
  rw [List.dropWhile_eq_self_iff]
  intro hl hp
  have hpre := List.rdropWhile_prefix (l := List.dropWhile goIsSpace s) (p := goIsSpace)
  have h0 : 0 < (List.dropWhile goIsSpace s).length :=
    Nat.lt_of_lt_of_le hl hpre.length_le
  have hnot := List.dropWhile_get_zero_not goIsSpace s h0
  have hget : (List.rdropWhile goIsSpace (List.dropWhile goIsSpace s))[0] =
      (List.dropWhile goIsSpace s)[0] := List.IsPrefix.getElem hpre hl
  apply hnot
  simp only [List.get_eq_getElem] at hp ⊢
  rw [← hget]
  exact hp

theorem trimSpace_idem (s : Str) : trimSpace (trimSpace s) = trimSpace s := by
  rw [trimSpace_eq_rdropWhile s, trimSpace_eq_rdropWhile, dropWhile_rdropWhile_dropWhile,
    List.rdropWhile_idempotent]

theorem mem_normalizeFilterValues {vals : List Str} {v : Str}
    (h : v ∈ normalizeFilterValues vals) :
    ¬ v = [] ∧ ∃ raw, raw ∈ vals ∧ v = trimSpace raw := by
  induction vals with
  | nil => simp [normalizeFilterValues] at h
  | cons a rest ih =>
    simp only [normalizeFilterValues] at h
    by_cases ha : trimSpace a = []
    · rw [if_pos ha] at h
      obtain ⟨h1, raw, h2, h3⟩ := ih h
      exact ⟨h1, raw, List.mem_cons_of_mem _ h2, h3⟩
    · rw [if_neg ha] at h
      rcases List.mem_cons.mp h with h | h
      · exact ⟨h ▸ ha, a, List.mem_cons_self _ _, h⟩
      · obtain ⟨h1, raw, h2, h3⟩ := ih h
        exact ⟨h1, raw, List.mem_cons_of_mem _ h2, h3⟩

theorem mem_splitCommaValues {vals : List Str} {x : Str}
    (h : x ∈ splitCommaValues vals) : ¬ x = [] ∧ trimSpace x = x := by
  induction vals with
  | nil => simp [splitCommaValues] at h
  | cons raw rest ih =>
    simp only [splitCommaValues] at h
    rcases List.mem_append.mp h with h | h
    · simp only [commaParts, List.mem_filter, List.mem_map] at h
      obtain ⟨⟨part, hp, hx⟩, hne⟩ := h
      refine ⟨by simpa using hne, ?_⟩
      rw [← hx, trimSpace_idem]
    · exact ih h

theorem clauseConds_column (column : Str) (op : FilterOp) (values : List Str) :
    ∀ p ∈ clauseConds column op values, predColumn p = column := by
  intro p hp
  cases op <;> simp only [clauseConds] at hp <;> (repeat' split at hp) <;>
    simp only [List.mem_singleton, List.mem_cons, List.not_mem_nil, or_false] at hp
  all_goals first
    | exact hp.elim
    | (subst hp; rfl)
    | (rcases hp with rfl | rfl <;> rfl)

theorem applyClause_not_allowed {allowed : List Str} {key : Str}
    (h : allowed.contains (parseFilterKey key).1 = false) (q : List SqlCond) (vals : List Str) :
    applyClause q key vals allowed = q := by
  unfold applyClause
  rw [if_pos (Or.inr h)]

theorem applyClause_mem {q : List SqlCond} {key : Str} {vals allowed : List Str} {p : SqlCond}
    (h : p ∈ applyClause q key vals allowed) :
    p ∈ q ∨ (predColumn p = (parseFilterKey key).1 ∧
      allowed.contains (parseFilterKey key).1 = true) := by
  simp only [applyClause] at h
  split at h
  · exact Or.inl h
  · rename_i hg
    have hc : allowed.contains (parseFilterKey key).1 = true := by
      cases h' : allowed.contains (parseFilterKey key).1
      · exact absurd (Or.inr h') hg
      · rfl
    split at h
    · exact Or.inl h
    · rcases List.mem_append.mp h with h' | h'
      · exact Or.inl h'
      · exact Or.inr ⟨clauseConds_column _ _ _ p h', hc⟩

theorem ApplyFilters_eq_foldl (q : List SqlCond) (filters : List (Str × List Str))
    (allowed : List Str) :
    ApplyFilters q filters allowed =
      filters.foldl (fun q kv => applyClause q kv.1 kv.2 allowed) q := by
  cases filters <;> simp [ApplyFilters]

theorem ApplyFilters_mem (allowed : List Str) :
    ∀ (filters : List (Str × List Str)) (q : List SqlCond) (p : SqlCond),
      p ∈ ApplyFilters q filters allowed →
      p ∈ q ∨ allowed.contains (predColumn p) = true := by
  intro filters
  induction filters with
  | nil => intro q p h; rw [ApplyFilters_eq_foldl] at h; exact Or.inl h
  | cons kv rest ih =>
    intro q p h
    rw [ApplyFilters_eq_foldl] at h
    simp only [List.foldl_cons] at h
    rw [← ApplyFilters_eq_foldl] at h
    rcases ih _ p h with h' | h'
    · rcases applyClause_mem h' with h'' | ⟨hcol, hc⟩
      · exact Or.inl h''
      · exact Or.inr (hcol ▸ hc)
    · exact Or.inr h'

/-! ### Claims about the predicate builder -/

/-- Claim C1: for every filter mapping, allowlist, and filter clause whose
parsed column is not in the allowlist, `ApplyFilters` adds no predicate
referencing that column (any such condition in the result was already in
the incoming query), and the built query is identical to the one built
with that clause removed — a silent drop, for every operator. -/
theorem c1_disallowed_clause_dropped (allowed : List Str) (q : List SqlCond)
    (pre post : List (Str × List Str)) (key : Str) (vals : List Str)
    (h : allowed.contains (parseFilterKey key).1 = false) :
    ApplyFilters q (pre ++ (key, vals) :: post) allowed = ApplyFilters q (pre ++ post) allowed ∧
    ∀ p, p ∈ ApplyFilters q (pre ++ (key, vals) :: post) allowed →
      predColumn p = (parseFilterKey key).1 → p ∈ q := by
  constructor
  · rw [ApplyFilters_eq_foldl, ApplyFilters_eq_foldl, List.foldl_append, List.foldl_append,
      List.foldl_cons, applyClause_not_allowed h]
  · intro p hp hcol
    rcases ApplyFilters_mem allowed _ q p hp with h' | h'
    · exact h'
    · rw [hcol, h] at h'
      exact absurd h' (by simp)

theorem c1_witness :
    ([str "age"].contains (parseFilterKey (str "secret__gt")).1 = false) ∧
    ApplyFilters [] [(str "age", [str "3"]), (str "secret__gt", [str "5"])] [str "age"] =
      ApplyFilters [] [(str "age", [str "3"])] [str "age"] :=
  ⟨by decide,
    (c1_disallowed_clause_dropped [str "age"] [] [(str "age", [str "3"])] []
      (str "secret__gt") [str "5"] (by decide)).1⟩

/-- Claim C7: for a `like` clause on an allowed column, a first operand with
neither `%` nor `_` is wrapped as `%value%`; an operand containing `%` or
`_` passes through unmodified as the pattern. -/
theorem c7_like_pattern_wrapping (q : List SqlCond) (key : Str) (vals : List Str)
    (allowed : List Str) (col v : Str) (rest : List Str)
    (hk : parseFilterKey key = (col, FilterOp.like))
    (hcol : ¬ col = []) (ha : allowed.contains col = true)
    (hv : normalizeFilterValues vals = v :: rest) :
    (containsAny v (str "%_") = false →
      applyClause q key vals allowed = q ++ [SqlCond.like col (str "%" ++ v ++ str "%")]) ∧
    (containsAny v (str "%_") = true →
      applyClause q key vals allowed = q ++ [SqlCond.like col v]) := by
  have hv0 : ¬ v = [] :=
    (mem_normalizeFilterValues (hv ▸ List.mem_cons_self v rest)).1
  have ham : col ∈ allowed := by simpa using ha
  constructor <;> intro hca <;>
    simp [applyClause, hk, clauseConds, hv, hcol, ham, hv0, hca]

/-- Claim C8: for a `between` clause on an allowed column, fewer than two
non-empty comma-split operands emit no predicate; two or more emit
`col >= first AND col <= second` from the first two values. -/
theorem c8_between_two_operands (q : List SqlCond) (key : Str) (vals : List Str)
    (allowed : List Str) (col : Str)
    (hk : parseFilterKey key = (col, FilterOp.between))
    (hcol : ¬ col = []) (ha : allowed.contains col = true) :
    ((splitCommaValues (normalizeFilterValues vals)).length < 2 →
      applyClause q key vals allowed = q) ∧
    (∀ a b rest2, splitCommaValues (normalizeFilterValues vals) = a :: b :: rest2 →
      applyClause q key vals allowed = q ++ [SqlCond.gte col a, SqlCond.lte col b]) := by
  have ham : col ∈ allowed := by simpa using ha
  constructor
  · intro hlen
    by_cases hnv : normalizeFilterValues vals = []
    · simp [applyClause, hk, hnv, hcol, ham]
    · cases hsp : splitCommaValues (normalizeFilterValues vals) with
      | nil => simp [applyClause, hk, hnv, hcol, ham, clauseConds, hsp]
      | cons a tail =>
        cases tail with
        | nil => simp [applyClause, hk, hnv, hcol, ham, clauseConds, hsp]
        | cons b tail2 =>
          rw [hsp] at hlen
          simp only [List.length_cons] at hlen
          omega
  · intro a b rest2 hsp
    have hnv : ¬ normalizeFilterValues vals = [] := by
      intro h0
      rw [h0] at hsp
      simp [splitCommaValues] at hsp
    have hma := mem_splitCommaValues (x := a) (hsp ▸ List.mem_cons_self _ _)
    have hmb := mem_splitCommaValues (x := b)
      (hsp ▸ List.mem_cons_of_mem _ (List.mem_cons_self _ _))
    simp [applyClause, hk, hcol, ham, hnv, clauseConds, hsp, hma.2, hmb.2, hma.1, hmb.1]

/-- Claim C10: a clause whose operator is not `isnull`/`notnull` is dropped
before any operand is accessed when all supplied values trim to empty
(so the first-operand access is always in bounds), while `isnull` and
`notnull` clauses are still applied when no operand values are supplied. -/
theorem c10_empty_values_safety (q : List SqlCond) (key : Str) (vals : List Str)
    (allowed : List Str) (col : Str) (op : FilterOp)
    (hk : parseFilterKey key = (col, op)) :
    (¬ op = FilterOp.isnull → ¬ op = FilterOp.notnull → normalizeFilterValues vals = [] →
      applyClause q key vals allowed = q) ∧
    (op = FilterOp.isnull → ¬ col = [] → allowed.contains col = true →
      applyClause q key [] allowed = q ++ [SqlCond.isNull col]) ∧
    (op = FilterOp.notnull → ¬ col = [] → allowed.contains col = true →
      applyClause q key [] allowed = q ++ [SqlCond.notNull col]) := by
  refine ⟨?_, ?_, ?_⟩
  · intro h1 h2 h3
    simp only [applyClause, hk]
    split
    · rfl
    · rw [if_pos ⟨h3, h1, h2⟩]
  · intro hop hcol ha
    subst hop
    have ham : col ∈ allowed := by simpa using ha
    have hpb : parseBoolValue (firstValue ([] : List Str)) = none := by decide
    simp [applyClause, hk, hcol, ham, clauseConds, hpb, normalizeFilterValues]
  · intro hop hcol ha
    subst hop
    have ham : col ∈ allowed := by simpa using ha
    simp [applyClause, hk, hcol, ham, clauseConds, normalizeFilterValues]

theorem c7_witness :
    parseFilterKey (str "name__like") = (str "name", FilterOp.like) ∧
    normalizeFilterValues [str " jo "] = str "jo" :: [] ∧
    containsAny (str "jo") (str "%_") = false ∧
    applyClause [] (str "name__like") [str " jo "] [str "name"] =
      [] ++ [SqlCond.like (str "name") (str "%" ++ str "jo" ++ str "%")] :=
  ⟨by decide, by decide, by decide,
    (c7_like_pattern_wrapping [] (str "name__like") [str " jo "] [str "name"]
      (str "name") (str "jo") [] (by decide) (by decide) (by decide) (by decide)).1 (by decide)⟩

theorem c8_witness :
    parseFilterKey (str "age__between") = (str "age", FilterOp.between) ∧
    splitCommaValues (normalizeFilterValues [str "1,5"]) = [str "1", str "5"] ∧
    applyClause [] (str "age__between") [str "1,5"] [str "age"] =
      [] ++ [SqlCond.gte (str "age") (str "1"), SqlCond.lte (str "age") (str "5")] :=
  ⟨by decide, by decide,
    (c8_between_two_operands [] (str "age__between") [str "1,5"] [str "age"] (str "age")
      (by decide) (by decide) (by decide)).2 (str "1") (str "5") [] (by decide)⟩

theorem c10_witness :
    parseFilterKey (str "age__gt") = (str "age", FilterOp.gt) ∧
    normalizeFilterValues [str "  "] = [] ∧
    applyClause [] (str "age__gt") [str "  "] [str "age"] = [] ∧
    applyClause [] (str "x__isnull") [] [str "x"] = [] ++ [SqlCond.isNull (str "x")] :=
  ⟨by decide, by decide,
    (c10_empty_values_safety [] (str "age__gt") [str "  "] [str "age"] (str "age")
      FilterOp.gt (by decide)).1 (by decide) (by decide) (by decide),
    ((c10_empty_values_safety [] (str "x__isnull") [] [str "x"] (str "x")
      FilterOp.isnull (by decide)).2).1 rfl (by decide) (by decide)⟩

theorem dunderAt_iff {s : Str} {i : Nat} :
    dunderAt s i = true ↔ ∃ t, s.drop i = '_' :: '_' :: t := by
  unfold dunderAt
  rw [decide_eq_true_iff]
  constructor
  · intro h
    cases hd : s.drop i with
    | nil => rw [hd] at h; simp at h
    | cons a l1 =>
      cases l1 with
      | nil => rw [hd] at h; simp at h
      | cons b l2 =>
        rw [hd] at h
        have h' : a = '_' ∧ b = '_' := by simpa using h
        obtain ⟨rfl, rfl⟩ := h'
        exact ⟨l2, rfl⟩
  · rintro ⟨t, ht⟩
    rw [ht]
    rfl

theorem lastDunderAux_spec (s : Str) :
    ∀ (n m : Nat), lastDunderAux s n = some m →
      dunderAt s m = true ∧ m < n ∧ ∀ i, m < i → i < n → dunderAt s i = false := by
  intro n
  induction n with
  | zero => intro m h; simp [lastDunderAux] at h
  | succ k ih =>
    intro m h
    simp only [lastDunderAux] at h
    by_cases hd : dunderAt s k
    · rw [if_pos hd] at h
      have hk : k = m := by injection h
      subst hk
      exact ⟨hd, Nat.lt_succ_self k, fun i h1 h2 => absurd h2 (by omega)⟩
    · rw [if_neg hd] at h
      obtain ⟨h1, h2, h3⟩ := ih m h
      refine ⟨h1, Nat.lt_succ_of_lt h2, fun i hi1 hi2 => ?_⟩
      by_cases hik : i = k
      · subst hik; simpa using hd
      · exact h3 i hi1 (by omega)

theorem lastDunderAux_eq_some (s : Str) :
    ∀ (n m : Nat), m < n → dunderAt s m = true →
      (∀ i, m < i → i < n → dunderAt s i = false) → lastDunderAux s n = some m := by
  intro n
  induction n with
  | zero => intro m hm; omega
  | succ k ih =>
    intro m hm hd hmax
    simp only [lastDunderAux]
    by_cases hk : dunderAt s k
    · rw [if_pos hk]
      have hmk : m = k := by
        by_contra hne
        have hlt : m < k := by omega
        exact absurd hk (by rw [hmax k hlt (Nat.lt_succ_self k)]; simp)
      rw [hmk]
    · rw [if_neg hk]
      have hmk : m < k := by
        by_cases he : m = k
        · subst he; exact absurd hd (by simpa using hk)
        · omega
      exact ih m hmk hd (fun i h1 h2 => hmax i h1 (Nat.lt_succ_of_lt h2))

theorem drop_length_add {α : Type} (l1 l2 : List α) (k : Nat) :
    (l1 ++ l2).drop (l1.length + k) = l2.drop k := by
  rw [← List.drop_drop, List.drop_left]

theorem parseFilterKey_recognized (key col rawOp : Str) (op : FilterOp)
    (htrim : trimSpace key = col ++ '_' :: '_' :: rawOp)
    (hcol : ¬ col = []) (hop : ¬ rawOp = [])
    (hhead : ¬ rawOp.head? = some '_')
    (hnod : ∀ i, i < rawOp.length → dunderAt rawOp i = false)
    (hnorm : normalizeFilterOp rawOp = some op) :
    parseFilterKey key = (col, op) := by
  have hTne : ¬ (col ++ '_' :: '_' :: rawOp) = [] := by
    cases col <;> simp
  have hlen : (col ++ '_' :: '_' :: rawOp).length = col.length + (2 + rawOp.length) := by
    simp only [List.length_append, List.length_cons]
    omega
  have hcl : 0 < col.length := List.length_pos.mpr hcol
  have hrl : 0 < rawOp.length := List.length_pos.mpr hop
  have hdrop2 : (col ++ '_' :: '_' :: rawOp).drop (col.length + 2) = rawOp := by
    rw [drop_length_add]
    rfl
  have hlast : lastDunderIdx (col ++ '_' :: '_' :: rawOp) = some col.length := by
    apply lastDunderAux_eq_some
    · omega
    · exact dunderAt_iff.mpr ⟨rawOp, List.drop_left col _⟩
    · intro i h1 h2
      by_cases hi : i = col.length + 1
      · subst hi
        cases h : dunderAt (col ++ '_' :: '_' :: rawOp) (col.length + 1)
        · rfl
        · exfalso
          obtain ⟨t, ht⟩ := dunderAt_iff.mp h
          rw [drop_length_add col _ 1, List.drop_one, List.tail_cons] at ht
          injection ht with h1 h2
          apply hhead
          rw [h2]
          rfl
      · have h2' : col.length + 2 ≤ i := by omega
        obtain ⟨j, rfl⟩ : ∃ j, i = col.length + 2 + j := ⟨i - (col.length + 2), by omega⟩
        have hdj : (col ++ '_' :: '_' :: rawOp).drop (col.length + 2 + j) = rawOp.drop j := by
          rw [Nat.add_assoc, drop_length_add, ← List.drop_drop]
          rfl
        have hj : j < rawOp.length := by omega
        have := hnod j hj
        unfold dunderAt at this ⊢
        rw [hdj]
        exact this
  simp only [parseFilterKey, htrim]
  rw [if_neg hTne]
  simp only [lastDunderIdx] at hlast
  simp only [lastDunderIdx, hlast]
  rw [if_pos (by constructor <;> omega)]
  rw [hdrop2, hnorm, List.take_left]

theorem parseFilterKey_fallback (key : Str)
    (h : ¬ ∃ col rawOp op, trimSpace key = col ++ '_' :: '_' :: rawOp ∧ ¬ col = [] ∧
        ¬ rawOp = [] ∧ ¬ rawOp.head? = some '_' ∧
        (∀ i, i < rawOp.length → dunderAt rawOp i = false) ∧
        normalizeFilterOp rawOp = some op) :
    parseFilterKey key = (trimSpace key, FilterOp.eq) := by
  by_cases h0 : trimSpace key = []
  · simp [parseFilterKey, h0]
  · simp only [parseFilterKey]
    rw [if_neg h0]
    cases hl : lastDunderIdx (trimSpace key) with
    | none => rfl
    | some idx =>
      dsimp only
      by_cases hcond : 0 < idx ∧ idx < (trimSpace key).length - 2
      · rw [if_pos hcond]
        cases hn : normalizeFilterOp ((trimSpace key).drop (idx + 2)) with
        | none => rfl
        | some op =>
          exfalso
          apply h
          simp only [lastDunderIdx] at hl
          obtain ⟨hd, hlt, hmax⟩ := lastDunderAux_spec _ _ _ hl
          obtain ⟨t, ht⟩ := dunderAt_iff.mp hd
          have hlen3 : idx + 3 ≤ (trimSpace key).length := by omega
          have htt : (trimSpace key).drop (idx + 2) = t := by
            have : idx + 2 = idx + 2 := rfl
            rw [show idx + 2 = idx + 2 from rfl, ← List.drop_drop, ht]
            rfl
          have htlen : t.length = (trimSpace key).length - (idx + 2) := by
            rw [← htt, List.length_drop]
          refine ⟨(trimSpace key).take idx, t, op, ?_, ?_, ?_, ?_, ?_, ?_⟩
          · rw [← ht]
            exact (List.take_append_drop idx (trimSpace key)).symm
          · intro hemp
            have := congrArg List.length hemp
            simp only [List.length_take, List.length_nil] at this
            omega
          · intro hemp
            rw [hemp] at htlen
            simp only [List.length_nil] at htlen
            omega
          · intro hh
            have hidx1 : idx + 1 < (trimSpace key).length := by omega
            have hfalse := hmax (idx + 1) (Nat.lt_succ_self idx) hidx1
            obtain ⟨t', ht'⟩ : ∃ t', t = '_' :: t' := by
              cases t with
              | nil => simp at hh
              | cons a t' =>
                simp only [List.head?_cons, Option.some.injEq] at hh
                exact ⟨t', by rw [hh]⟩
            apply absurd hfalse
            simp only [Bool.not_eq_false]
            apply dunderAt_iff.mpr
            refine ⟨t', ?_⟩
            rw [show idx + 1 = idx + 1 from rfl, ← List.drop_drop, ht, ht']
            rfl
          · intro j hj
            have hdj : t.drop j = (trimSpace key).drop (idx + 2 + j) := by
              rw [← htt, List.drop_drop]
            have hfalse := hmax (idx + 2 + j) (by omega) (by omega)
            unfold dunderAt at hfalse ⊢
            rw [hdj]
            exact hfalse
          · exact htt ▸ hn
      · rw [if_neg hcond]

/-- Claim C2 (amended): `parseFilterKey` operates on the whitespace-trimmed
key.  If the trimmed key is `col ++ "__" ++ rawOp` with the shown `"__"` its
last occurrence (`rawOp` neither starts with `'_'` nor contains `"__"`),
`col` and `rawOp` non-empty, and `rawOp` a recognized alias
(case-insensitively, after trimming), the result is `(col, normalizedOp)`;
for every other string the result is the trimmed key with operator `eq`. -/
theorem c2_parse_filter_key_grammar :
    (∀ (key col rawOp : Str) (op : FilterOp),
      trimSpace key = col ++ '_' :: '_' :: rawOp → ¬ col = [] → ¬ rawOp = [] →
      ¬ rawOp.head? = some '_' → (∀ i, i < rawOp.length → dunderAt rawOp i = false) →
      normalizeFilterOp rawOp = some op →
      parseFilterKey key = (col, op)) ∧
    (∀ key : Str,
      (¬ ∃ col rawOp op, trimSpace key = col ++ '_' :: '_' :: rawOp ∧ ¬ col = [] ∧
        ¬ rawOp = [] ∧ ¬ rawOp.head? = some '_' ∧
        (∀ i, i < rawOp.length → dunderAt rawOp i = false) ∧
        normalizeFilterOp rawOp = some op) →
      parseFilterKey key = (trimSpace key, FilterOp.eq)) :=
  ⟨parseFilterKey_recognized, parseFilterKey_fallback⟩

/-- Claim C2 counterexample: the claim says every string not of the
recognized `col__op` form yields the key itself as the column, but
`parseFilterKey " name"` yields the trimmed key `"name"`, not `" name"`. -/
theorem c2_counterexample :
    parseFilterKey (str " name") = (str "name", FilterOp.eq) ∧
    ¬ parseFilterKey (str " name") = (str " name", FilterOp.eq) := by decide

theorem c2_witness :
    (trimSpace (str "name__GTE ") = str "name" ++ '_' :: '_' :: str "GTE" ∧
      ¬ str "name" = [] ∧ ¬ str "GTE" = [] ∧ ¬ (str "GTE").head? = some '_' ∧
      (∀ i, i < (str "GTE").length → dunderAt (str "GTE") i = false) ∧
      normalizeFilterOp (str "GTE") = some FilterOp.gte ∧
      parseFilterKey (str "name__GTE ") = (str "name", FilterOp.gte)) ∧
    parseFilterKey (str "a") = (str "a", FilterOp.eq) := by
  constructor
  · refine ⟨by decide, by decide, by decide, by decide, by decide, by decide, ?_⟩
    exact c2_parse_filter_key_grammar.1 (str "name__GTE ") (str "name") (str "GTE")
      FilterOp.gte (by decide) (by decide) (by decide) (by decide) (by decide) (by decide)
  · have h2 := c2_parse_filter_key_grammar.2 (str "a") (by
      rintro ⟨col, rawOp, op, h1, hc, hr, _, _, _⟩
      have hL : (trimSpace (str "a")).length = 1 := by decide
      have hlen := congrArg List.length h1
      rw [hL] at hlen
      simp only [List.length_append, List.length_cons] at hlen
      have hc' : 0 < col.length := List.length_pos.mpr hc
      omega)
    have ht : trimSpace (str "a") = str "a" := by decide
    rw [ht] at h2
    exact h2

theorem contains_cons_false {l : List Str} {a x : Str} :
    ((a :: l).contains x = false) ↔ (¬ x = a ∧ l.contains x = false) := by
  simp [List.contains_cons]

theorem sanitizeAux_eq_keepFirst (allowed : List Str) :
    ∀ (orders : List OrderOption) (seen : List Str),
      sanitizeAux allowed orders seen =
        keepFirst ((orders.map (fun o => (⟨trimSpace o.Column, o.Desc⟩ : OrderOption))).filter
          (fun o => ¬ o.Column = [] ∧ allowed.contains o.Column = true ∧
            seen.contains o.Column = false)) := by
  intro orders
  induction orders with
  | nil => intro seen; simp [sanitizeAux, keepFirst]
  | cons o rest ih =>
    intro seen
    simp only [sanitizeAux, List.map_cons, List.filter_cons]
    by_cases h1 : trimSpace o.Column = [] ∨ allowed.contains (trimSpace o.Column) = false
    · rw [if_pos h1]
      have hpred : ¬ (¬ trimSpace o.Column = [] ∧
          allowed.contains (trimSpace o.Column) = true ∧
          seen.contains (trimSpace o.Column) = false) := by
        rcases h1 with h1 | h1
        · exact fun hp => hp.1 h1
        · exact fun hp => by rw [h1] at hp; exact absurd hp.2.1 (by simp)
      rw [if_neg (by simpa using hpred)]
      exact ih seen
    · rw [if_neg h1]
      have hc : allowed.contains (trimSpace o.Column) = true := by
        cases h' : allowed.contains (trimSpace o.Column)
        · exact absurd (Or.inr h') h1
        · rfl
      have hne : ¬ trimSpace o.Column = [] := fun h => h1 (Or.inl h)
      by_cases h2 : seen.contains (trimSpace o.Column) = true
      · rw [if_pos h2]
        have hpred : ¬ (¬ trimSpace o.Column = [] ∧
            allowed.contains (trimSpace o.Column) = true ∧
            seen.contains (trimSpace o.Column) = false) := by
          intro hp
          rw [h2] at hp
          exact absurd hp.2.2 (by simp)
        rw [if_neg (by simpa using hpred)]
        exact ih seen
      · rw [if_neg h2]
        have h2' : seen.contains (trimSpace o.Column) = false := by
          cases h' : seen.contains (trimSpace o.Column)
          · rfl
          · exact absurd h' h2
        have hcm : trimSpace o.Column ∈ allowed := by simpa using hc
        have h2m : trimSpace o.Column ∉ seen := by simpa using h2'
        rw [if_pos (by simp [hne, hcm, h2m])]
        simp only [keepFirst]
        rw [ih (trimSpace o.Column :: seen)]
        congr 1
        rw [List.filter_filter]
        congr 1
        apply List.filter_congr
        intro o2 _
        by_cases hA : o2.Column = trimSpace o.Column <;>
          by_cases hB : o2.Column = [] <;>
            by_cases hC : o2.Column ∈ allowed <;>
              by_cases hD : o2.Column ∈ seen <;>
                simp [hA, hB, hC, hD, contains_cons_false]

theorem parseOrderOption_two_tokens (raw p0 p1 : Str) (rest : List Str)
    (hf : goFieldsBy isOrderSep (trimSpace raw) = p0 :: p1 :: rest)
    (hcol : ¬ stripSign (trimSpace p0) = []) :
    parseOrderOption raw = some ⟨stripSign (trimSpace p0), isDescWord p1⟩ := by
  have htne : ¬ trimSpace raw = [] := by
    intro h0
    rw [h0] at hf
    simp [goFieldsBy, fieldsAux] at hf
  have hc0 : ¬ trimSpace p0 = [] := by
    intro h0
    apply hcol
    rw [h0]
    rfl
  simp only [parseOrderOption]
  rw [if_neg htne, hf]
  dsimp only
  rw [if_neg hc0, if_neg hcol]

theorem sanitizeOrders_eq (orders : List OrderOption) (allowed : List Str) :
    sanitizeOrders orders allowed =
      if allowed = [] then []
      else keepFirst ((orders.map (fun o => (⟨trimSpace o.Column, o.Desc⟩ : OrderOption))).filter
        (fun o => ¬ o.Column = [] ∧ allowed.contains o.Column = true)) := by
  by_cases ha : allowed = []
  · rw [if_pos ha]
    simp only [sanitizeOrders]
    rw [if_pos (Or.inr ha)]
  · rw [if_neg ha]
    by_cases ho : orders = []
    · subst ho
      simp [sanitizeOrders, keepFirst]
    · simp only [sanitizeOrders]
      rw [if_neg (by simp [ho, ha])]
      rw [sanitizeAux_eq_keepFirst]
      congr 1
      apply List.filter_congr
      intro o2 _
      simp

/-- Claim C6: `"-name"` resolves to descending `name`; `"age asc"` to
ascending `age`; with a second token present the token alone decides the
direction (`desc`/`descend`/`descending` force descending, anything else
ascending), overriding any `-`/`+` prefix; and the sanitized list keeps
only the first occurrence of each column, in input order, dropping
empty-column and non-allowlisted entries. -/
theorem c6_order_resolution :
    parseOrderOption (str "-name") = some ⟨str "name", true⟩ ∧
    parseOrderOption (str "age asc") = some ⟨str "age", false⟩ ∧
    (∀ (raw p0 p1 : Str) (rest : List Str),
      goFieldsBy isOrderSep (trimSpace raw) = p0 :: p1 :: rest →
      ¬ stripSign (trimSpace p0) = [] →
      parseOrderOption raw = some ⟨stripSign (trimSpace p0), isDescWord p1⟩) ∧
    (∀ (orders : List OrderOption) (allowed : List Str),
      sanitizeOrders orders allowed =
        if allowed = [] then []
        else keepFirst ((orders.map
          (fun o => (⟨trimSpace o.Column, o.Desc⟩ : OrderOption))).filter
          (fun o => ¬ o.Column = [] ∧ allowed.contains o.Column = true))) ∧
    sanitizeOrders [⟨str "name", true⟩, ⟨str "name", false⟩] [str "name"] =
      [⟨str "name", true⟩] :=
  ⟨by decide, by decide, parseOrderOption_two_tokens, sanitizeOrders_eq, by decide⟩

theorem c6_witness :
    (goFieldsBy isOrderSep (trimSpace (str "+age desc")) = [str "+age", str "desc"] ∧
      ¬ stripSign (trimSpace (str "+age")) = [] ∧
      parseOrderOption (str "+age desc") =
        some ⟨stripSign (trimSpace (str "+age")), isDescWord (str "desc")⟩) ∧
    sanitizeOrders [⟨str "name", true⟩] [str "name"] =
      (if ([str "name"] : List Str) = [] then []
        else keepFirst ((([⟨str "name", true⟩] : List OrderOption).map
          (fun o => (⟨trimSpace o.Column, o.Desc⟩ : OrderOption))).filter
          (fun o => ¬ o.Column = [] ∧ ([str "name"] : List Str).contains o.Column = true))) :=
  ⟨⟨by decide, by decide,
      c6_order_resolution.2.2.1 (str "+age desc") (str "+age") (str "desc") []
        (by decide) (by decide)⟩,
    c6_order_resolution.2.2.2.1 [⟨str "name", true⟩] [str "name"]⟩

theorem updateColumnsAux_eq_filter (pIdx : Nat) :
    ∀ (fields : List FieldModel) (i : Nat),
      updateColumnsAux pIdx fields i =
        ((List.enumFrom i fields).filter
          (fun p => ¬ p.1 = pIdx ∧ p.2.updatable = true ∧ ¬ p.2.dbName = [] ∧
            (0 < p.2.autoUpdateTime ∨ p.2.isZero = false))).map (fun p => p.2.dbName) := by
  intro fields
  induction fields with
  | nil => intro i; simp [updateColumnsAux]
  | cons f rest ih =>
    intro i
    simp only [updateColumnsAux, List.enumFrom, List.filter_cons]
    by_cases h1 : ¬ f.updatable = true ∨ f.dbName = [] ∨ i = pIdx
    · rw [if_pos h1]
      rw [if_neg (by
        intro hp
        have hp := of_decide_eq_true hp
        rcases h1 with h1 | h1 | h1
        · exact h1 hp.2.1
        · exact hp.2.2.1 h1
        · exact hp.1 h1)]
      exact ih (i + 1)
    · rw [if_neg h1]
      push_neg at h1
      obtain ⟨hu, hdb, hip⟩ := h1
      by_cases h2 : 0 < f.autoUpdateTime
      · rw [if_pos h2]
        rw [if_pos (decide_eq_true ⟨hip, hu, hdb, Or.inl h2⟩)]
        simp only [List.map_cons]
        rw [ih (i + 1)]
      · rw [if_neg h2]
        by_cases h3 : f.isZero = true
        · rw [if_pos h3]
          rw [if_neg (by
            intro hp
            have hp := of_decide_eq_true hp
            rcases hp.2.2.2 with h | h
            · exact h2 h
            · rw [h3] at h; exact absurd h (by simp))]
          exact ih (i + 1)
        · rw [if_neg h3]
          rw [if_pos (decide_eq_true ⟨hip, hu, hdb, Or.inr (by
            cases h : f.isZero
            · rfl
            · exact absurd h h3)⟩)]
          simp only [List.map_cons]
          rw [ih (i + 1)]

/-- Claim C3: for every non-nil record, a zero-valued primary key yields a
full insert (`create`); otherwise an update is issued whose column set is
exactly the writable (updatable, store-mapped) non-primary-key fields that
are auto-managed (always included) or at a non-zero value; if that set is
empty the call is a no-op success with no store write. -/
theorem c3_save_or_update (e : EntityModel) (primary : FieldModel)
    (hp : e.fields[e.primaryIdx]? = some primary) :
    (primary.isZero = true → saveOrUpdate (some e) = Except.ok SaveAction.create) ∧
    (primary.isZero = false →
      saveOrUpdate (some e) =
        (if ((e.fields.enum.filter
            (fun p => ¬ p.1 = e.primaryIdx ∧ p.2.updatable = true ∧ ¬ p.2.dbName = [] ∧
              (0 < p.2.autoUpdateTime ∨ p.2.isZero = false))).map (fun p => p.2.dbName)) = []
          then Except.ok SaveAction.noop
          else Except.ok (SaveAction.update
            ((e.fields.enum.filter
              (fun p => ¬ p.1 = e.primaryIdx ∧ p.2.updatable = true ∧ ¬ p.2.dbName = [] ∧
                (0 < p.2.autoUpdateTime ∨ p.2.isZero = false))).map
              (fun p => p.2.dbName))))) := by
  have hcols : updateColumns e.fields e.primaryIdx =
      (e.fields.enum.filter
        (fun p => ¬ p.1 = e.primaryIdx ∧ p.2.updatable = true ∧ ¬ p.2.dbName = [] ∧
          (0 < p.2.autoUpdateTime ∨ p.2.isZero = false))).map (fun p => p.2.dbName) := by
    rw [updateColumns, updateColumnsAux_eq_filter]
    rfl
  constructor
  · intro hz
    simp [saveOrUpdate, hp, hz]
  · intro hz
    simp only [saveOrUpdate, hp, hz]
    rw [hcols]
    simp

theorem c3_witness :
    (([(⟨str "id", true, 0, true⟩ : FieldModel)] : List FieldModel)[(0 : Nat)]? =
      some ⟨str "id", true, 0, true⟩) ∧
    saveOrUpdate (some ⟨[⟨str "id", true, 0, true⟩], 0⟩) = Except.ok SaveAction.create ∧
    saveOrUpdate (some ⟨[⟨str "id", true, 0, false⟩, ⟨str "upd", true, 1, true⟩,
        ⟨str "name", true, 0, false⟩, ⟨str "age", true, 0, true⟩], 0⟩) =
      Except.ok (SaveAction.update [str "upd", str "name"]) ∧
    saveOrUpdate (some ⟨[⟨str "id", true, 0, false⟩, ⟨str "age", true, 0, true⟩], 0⟩) =
      Except.ok SaveAction.noop :=
  ⟨by decide,
    (c3_save_or_update ⟨[⟨str "id", true, 0, true⟩], 0⟩ ⟨str "id", true, 0, true⟩
      (by decide)).1 rfl,
    by
      rw [(c3_save_or_update ⟨[⟨str "id", true, 0, false⟩, ⟨str "upd", true, 1, true⟩,
          ⟨str "name", true, 0, false⟩, ⟨str "age", true, 0, true⟩], 0⟩
          ⟨str "id", true, 0, false⟩ (by decide)).2 rfl]
      decide,
    by
      rw [(c3_save_or_update ⟨[⟨str "id", true, 0, false⟩, ⟨str "age", true, 0, true⟩], 0⟩
          ⟨str "id", true, 0, false⟩ (by decide)).2 rfl]
      decide⟩

/-- Claim C4 (amended): `DeleteByID` fails with `InvalidInput`
(`"id is required"`) on an empty/blank id; a non-blank id that parses as a
non-negative 64-bit integer deletes by primary-key equality on the numeric
form, while any other id deletes by equality on the column literally named
`id` against the string form (primary-key equality exactly when the
primary-key column is named `id`); a store error passes through, zero
affected rows yield `NotFound`, and otherwise the call succeeds. -/
theorem c4_delete_by_id (id : Str) (exec : DeleteCond → Except Str Nat) :
    (trimSpace id = [] →
      DeleteByID id exec = Except.error (CrudError.invalidInput (str "id is required"))) ∧
    (∀ n, parseUint64 id = some n → deleteCondition id = DeleteCond.byPrimaryKey n) ∧
    (parseUint64 id = none → deleteCondition id = DeleteCond.byColumn (str "id") id) ∧
    (¬ trimSpace id = [] →
      (∀ msg, exec (deleteCondition id) = Except.error msg →
        DeleteByID id exec = Except.error (CrudError.storeFailure msg)) ∧
      (exec (deleteCondition id) = Except.ok 0 →
        DeleteByID id exec = Except.error CrudError.notFound) ∧
      (∀ k, exec (deleteCondition id) = Except.ok (k + 1) →
        DeleteByID id exec = Except.ok ())) := by
  refine ⟨?_, ?_, ?_, ?_⟩
  · intro hb
    simp [DeleteByID, hb]
  · intro n hn
    simp [deleteCondition, hn]
  · intro hn
    simp [deleteCondition, hn]
  · intro hb
    refine ⟨?_, ?_, ?_⟩
    · intro msg hm
      simp [DeleteByID, hb, hm]
    · intro h0
      simp [DeleteByID, hb, h0]
    · intro k hk
      simp [DeleteByID, hb, hk]

/-- Claim C4 counterexample: the claim says a non-numeric id is deleted by
primary-key equality on the string form, but the code hardcodes
`Where("id = ?", id)`: for a table whose primary-key column is `uuid`,
the built condition references column `id`, not the primary key. -/
theorem c4_counterexample :
    deleteCondition (str "a1b2") = DeleteCond.byColumn (str "id") (str "a1b2") ∧
    ¬ deleteCondition (str "a1b2") = specDeleteCondition (str "uuid") (str "a1b2") := by
  decide

theorem c4_witness :
    (trimSpace (str " ") = [] ∧
      DeleteByID (str " ") (fun _ => Except.ok 1) =
        Except.error (CrudError.invalidInput (str "id is required"))) ∧
    (parseUint64 (str "42") = some 42 ∧
      deleteCondition (str "42") = DeleteCond.byPrimaryKey 42) ∧
    (parseUint64 (str "a1b2") = none ∧
      deleteCondition (str "a1b2") = DeleteCond.byColumn (str "id") (str "a1b2")) ∧
    (¬ trimSpace (str "9") = [] ∧
      DeleteByID (str "9") (fun _ => Except.ok 0) = Except.error CrudError.notFound ∧
      DeleteByID (str "9") (fun _ => Except.ok 1) = Except.ok ()) :=
  ⟨⟨by decide, (c4_delete_by_id (str " ") (fun _ => Except.ok 1)).1 (by decide)⟩,
    ⟨by decide, (c4_delete_by_id (str "42") (fun _ => Except.ok 1)).2.1 42 (by decide)⟩,
    ⟨by decide, (c4_delete_by_id (str "a1b2") (fun _ => Except.ok 1)).2.2.1 (by decide)⟩,
    ⟨by decide,
      ((c4_delete_by_id (str "9") (fun _ => Except.ok 0)).2.2.2 (by decide)).2.1 (by decide),
      ((c4_delete_by_id (str "9") (fun _ => Except.ok 1)).2.2.2 (by decide)).2.2 0 (by decide)⟩⟩

/-- Claim C5 (amended): `Paginate` clamps `page < 1` to `1` and `size ≤ 0`
to `10`; the fetch offset is `(page-1)*size` after clamping; the count
reads only the filter conditions, so `total` is independent of `page` and
`size`; at most `size` (clamped) items are fetched; and when the sanitized
order list is empty the fetch falls back to ordering by the column
literally named `id` (the primary key exactly when it is named `id`). -/
theorem c5_paginate (page size : Int) (filters : List (Str × List Str))
    (orders : List OrderOption) (allowed : List Str) :
    paginatePlan page size filters orders allowed =
      paginatePlan (if page < 1 then 1 else page) (if size ≤ 0 then 10 else size)
        filters orders allowed ∧
    (paginatePlan page size filters orders allowed).offset =
      ((if page < 1 then 1 else page) - 1) * (if size ≤ 0 then 10 else size) ∧
    (paginatePlan page size filters orders allowed).limit =
      (if size ≤ 0 then 10 else size) ∧
    (∀ (Row : Type) (sat : SqlCond → Row → Bool)
        (sortRows : List OrderClause → List Row → List Row) (rows : List Row)
        (page2 size2 : Int),
      (Paginate sat sortRows rows page size filters orders allowed).2 =
        (Paginate sat sortRows rows page2 size2 filters orders allowed).2) ∧
    (∀ (Row : Type) (sat : SqlCond → Row → Bool)
        (sortRows : List OrderClause → List Row → List Row) (rows : List Row),
      ((Paginate sat sortRows rows page size filters orders allowed).1).length ≤
        (if size ≤ 0 then 10 else size).toNat) ∧
    (sanitizeOrders orders allowed = [] →
      (paginatePlan page size filters orders allowed).orderBy =
        [OrderClause.raw (str "id")]) := by
  refine ⟨?_, ?_, ?_, ?_, ?_, ?_⟩
  · by_cases hp : page < 1 <;> by_cases hs : size ≤ 0 <;>
      simp [paginatePlan, hp, hs]
  · by_cases hp : page < 1 <;> by_cases hs : size ≤ 0 <;>
      simp [paginatePlan, hp, hs]
  · by_cases hs : size ≤ 0 <;> simp [paginatePlan, hs]
  · intro Row sat sortRows rows page2 size2
    rfl
  · intro Row sat sortRows rows
    have h1 : (Paginate sat sortRows rows page size filters orders allowed).1.length ≤
        (paginatePlan page size filters orders allowed).limit.toNat := by
      simp [Paginate, fetchRows]
    have h2 : (paginatePlan page size filters orders allowed).limit =
        (if size ≤ 0 then 10 else size) := by
      by_cases hs : size ≤ 0 <;> simp [paginatePlan, hs]
    rw [h2] at h1
    exact h1
  · intro hs
    simp [paginatePlan, hs]

/-- Claim C5 counterexample: the claim says the fallback orders by the
primary key, but the code issues `Order("id")`: for an entity whose only
(primary-key) column is `uuid`, the fallback still references the literal
column `id`, not the primary key. -/
theorem c5_counterexample :
    (paginatePlan 1 10 [] [] [str "uuid"]).orderBy = [OrderClause.raw (str "id")] ∧
    ¬ (paginatePlan 1 10 [] [] [str "uuid"]).orderBy =
      specPrimaryKeyFallback (str "uuid") := by
  decide

theorem c5_witness :
    (sanitizeOrders [] [str "age"] = [] ∧
      (paginatePlan 0 (-5) [] [] [str "age"]).orderBy = [OrderClause.raw (str "id")]) ∧
    (paginatePlan 0 (-5) [] [] [str "age"]).offset =
      ((if (0 : Int) < 1 then 1 else 0) - 1) * (if (-5 : Int) ≤ 0 then 10 else -5) ∧
    ((Paginate (fun _ _ => true) (fun _ l => l) [1, 2, 3] 0 (-5) [] [] [str "age"] :
        List Nat × Nat).1).length ≤ (if (-5 : Int) ≤ 0 then 10 else -5).toNat ∧
    (Paginate (fun _ _ => true) (fun _ l => l) [1, 2, 3] 0 (-5) [] [] [str "age"] :
        List Nat × Nat).2 =
      (Paginate (fun _ _ => true) (fun _ l => l) [1, 2, 3] 7 2 [] [] [str "age"] :
        List Nat × Nat).2 :=
  ⟨⟨by decide, (c5_paginate 0 (-5) [] [] [str "age"]).2.2.2.2.2 (by decide)⟩,
    (c5_paginate 0 (-5) [] [] [str "age"]).2.1,
    (c5_paginate 0 (-5) [] [] [str "age"]).2.2.2.2.1 Nat (fun _ _ => true) (fun _ l => l)
      [1, 2, 3],
    (c5_paginate 0 (-5) [] [] [str "age"]).2.2.2.1 Nat (fun _ _ => true) (fun _ l => l)
      [1, 2, 3] 7 2⟩

/-- Claim C9: every allowlist name matches `^[A-Za-z0-9_]+$`; for a parsed
schema the allowlist holds exactly the store-facing column names (falling
back to the field name when no store name is declared) that match the
pattern; and when the type cannot be introspected at all the allowlist is
empty rather than an error. -/
theorem c9_column_allowlist :
    (∀ (sf : Option (List SchemaField)) (mc : Option (List Str)) (name : Str),
      name ∈ columnAllowlist sf mc → matchesColumnNamePattern name = true) ∧
    (∀ (fs : List SchemaField) (mc : Option (List Str)) (name : Str),
      name ∈ columnAllowlist (some fs) mc ↔
        ((∃ f ∈ fs, effectiveColumnName f = name) ∧
          matchesColumnNamePattern name = true)) ∧
    columnAllowlist none none = [] := by
  refine ⟨?_, ?_, rfl⟩
  · intro sf mc name h
    cases sf with
    | some fs =>
      simp only [columnAllowlist, List.mem_filter] at h
      exact h.2
    | none =>
      cases mc with
      | some cs =>
        simp only [columnAllowlist, List.mem_filter] at h
        exact h.2
      | none => simp [columnAllowlist] at h
  · intro fs mc name
    simp [columnAllowlist, List.mem_filter, List.mem_map]

theorem c9_witness :
    (str "user_name" ∈
      columnAllowlist (some [⟨str "user_name", str "UserName"⟩, ⟨str "a b", str "AB"⟩])
        none) ∧
    matchesColumnNamePattern (str "user_name") = true ∧
    (str "Orders" ∈ columnAllowlist (some [⟨[], str "Orders"⟩]) none ↔
      ((∃ f ∈ [(⟨[], str "Orders"⟩ : SchemaField)], effectiveColumnName f = str "Orders") ∧
        matchesColumnNamePattern (str "Orders") = true)) :=
  ⟨by decide,
    c9_column_allowlist.1 (some [⟨str "user_name", str "UserName"⟩, ⟨str "a b", str "AB"⟩])
      none (str "user_name") (by decide),
    c9_column_allowlist.2.1 [⟨[], str "Orders"⟩] none (str "Orders")⟩
